import Mathlib

/-
Shallow embedding of deploypyfiles.py (the resolution-and-materialization
engine of the deploypyfiles repository) and verification of its spec claims.

Paths are lists of string components.  The filesystem is an explicit value:
a list of directory paths and an association list of file paths to byte
contents (contents are modelled as strings; a byte comparison is a string
comparison).  Python dicts are modelled as association lists that preserve
insertion order.  pathlib.Path.resolve is the identity in this model (no
symlinks, no relative components).  A read of a missing file is modelled as
returning the empty string; in Python such a read raises and aborts the run,
and every theorem that depends on a read supplies the file.
-/

set_option linter.unusedVariables false

namespace Deploypy

/-- Filesystem paths as lists of components (embedding of pathlib.Path). -/
abbrev Path := List String

/-- Index of the last dot in a list of characters, if any. -/
def lastDotIdx : List Char → Option Nat
  | [] => none
  | c :: cs =>
    match lastDotIdx cs with
    | some i => some (i + 1)
    | none => if c = '.' then some 0 else none

/-- pathlib stem of a file name: the name without its final suffix.
Follows CPython: the suffix starts at the last dot, provided that dot is
neither the first nor the last character of the name. -/
def pyStem (name : String) : String :=
  match lastDotIdx name.data with
  | none => name
  | some i =>
    if 0 < i ∧ i + 1 < name.data.length then String.mk (name.data.take i) else name

/-- pathlib suffix of a file name (the final extension, with its dot). -/
def pySuffix (name : String) : String :=
  match lastDotIdx name.data with
  | none => ""
  | some i =>
    if 0 < i ∧ i + 1 < name.data.length then String.mk (name.data.drop i) else ""

/-- Split a character list on a separator character. -/
def splitOnCharAux (sep : Char) : List Char → List Char → List String
  | [], acc => [String.mk acc.reverse]
  | c :: cs, acc =>
    if c = sep then String.mk acc.reverse :: splitOnCharAux sep cs []
    else splitOnCharAux sep cs (c :: acc)

/-- pathlib suffixes of a file name, e.g. the list [".py"] for "a.py". -/
def pySuffixes (name : String) : List String :=
  ((splitOnCharAux '.' (name.data.dropWhile (· = '.')) []).drop 1).map (fun s => "." ++ s)

/-- Last component of a path (pathlib name). -/
def path_name (p : Path) : String := p.getLastD ""

/-- Parent of a path (pathlib parent). -/
def path_parent (p : Path) : Path := p.dropLast

/-- Stem of a path's last component (pathlib stem). -/
def path_stem (p : Path) : String := pyStem (path_name p)

/-- Suffix of a path's last component (pathlib suffix). -/
def path_suffix (p : Path) : String := pySuffix (path_name p)

/-- pathlib with_stem: replace the stem of the last component, keep the suffix. -/
def with_stem (p : Path) (st : String) : Path :=
  p.dropLast ++ [st ++ pySuffix (path_name p)]

/-- pathlib relative_to.  Every call site of the source guarantees that root
is a prefix; outside that case Python raises, and the model returns p. -/
def relative_to (p root : Path) : Path :=
  if root.isPrefixOf p then p.drop root.length else p

/-- Python Path(string): split on slashes, dropping empty and dot components. -/
def pathOfString (s : String) : Path :=
  (splitOnCharAux '/' s.data []).filter (fun c => decide (c ≠ "" ∧ c ≠ "."))

/-- The filesystem: a set of directories and a map from file paths to bytes. -/
structure FS where
  dirs : List Path
  files : List (Path × String)
deriving DecidableEq, Repr

def FS.lookupFile (fs : FS) (p : Path) : Option String :=
  (fs.files.find? (fun e => decide (e.1 = p))).map Prod.snd

def FS.isFile (fs : FS) (p : Path) : Bool := (fs.lookupFile p).isSome

def FS.isDir (fs : FS) (p : Path) : Bool := decide (p ∈ fs.dirs)

def FS.pathExists (fs : FS) (p : Path) : Bool := fs.isDir p || fs.isFile p

/-- Path.read_bytes / read_text.  A missing file reads as empty here; in
Python it raises, and theorems that rely on contents supply the file. -/
def FS.readBytes (fs : FS) (p : Path) : String := (fs.lookupFile p).getD ""

def FS.readText (fs : FS) (p : Path) : String := fs.readBytes p

/-- Path.write_bytes: overwrite the entry if present, else append it. -/
def FS.writeFile (fs : FS) (p : Path) (c : String) : FS :=
  if (fs.lookupFile p).isSome then
    ⟨fs.dirs, fs.files.map (fun e => if e.1 = p then (p, c) else e)⟩
  else ⟨fs.dirs, fs.files ++ [(p, c)]⟩

/-- shutil.rmtree with ignore_errors: drop the whole subtree rooted at p. -/
def FS.rmtree (fs : FS) (p : Path) : FS :=
  ⟨fs.dirs.filter (fun d => !(p.isPrefixOf d)),
   fs.files.filter (fun e => !(p.isPrefixOf e.1))⟩

/-- Path.mkdir with parents and exist_ok: add p and all its ancestors. -/
def FS.mkdirParents (fs : FS) (p : Path) : FS :=
  ⟨fs.dirs ++ (((List.range (p.length + 1)).map (fun i => p.take i)).filter
      (fun q => decide (q ∉ fs.dirs))), fs.files⟩

/-- Direct children of a directory (Path.iterdir, unordered). -/
def FS.children (fs : FS) (p : Path) : List Path :=
  (fs.dirs ++ fs.files.map Prod.fst).filter (fun q => decide (q ≠ [] ∧ q.dropLast = p))

/-- Stable insertion into a list sorted by le. -/
def insertLe (le : Path → Path → Bool) (x : Path) : List Path → List Path
  | [] => [x]
  | y :: ys => if le y x then y :: insertLe le x ys else x :: y :: ys

/-- Insertion sort (models Python list.sort, which is total on string keys). -/
def sortPaths (le : Path → Path → Bool) : List Path → List Path
  | [] => []
  | x :: xs => insertLe le x (sortPaths le xs)

/-- Lexicographic comparison of character lists (Python string order). -/
def charListLe : List Char → List Char → Bool
  | [], _ => true
  | _ :: _, [] => false
  | a :: as, b :: bs => if a = b then charListLe as bs else decide (a < b)

def pathStr (p : Path) : String := String.intercalate ("/") p

def strKeyLe (a b : Path) : Bool := charListLe (pathStr a).data (pathStr b).data

/-- iterdir of the source (lines 318-321): list children whose stem does not
start with a character of "._: " (an empty stem is also excluded, because in
Python the empty string is a substring of everything), sorted by str(path). -/
def iterdir (fs : FS) (path : Path) : List Path :=
  sortPaths strKeyLe ((fs.children path).filter (fun q =>
    decide (¬ ((pyStem (path_name q)).data.headD ' ' ∈ ['.', '_', ':', ' ']))))

/-- str.startswith. -/
def strStarts (s pre : String) : Bool := pre.data.isPrefixOf s.data

/-- str.splitlines helper. -/
def splitLinesAux : List Char → List Char → List String
  | [], acc => [String.mk acc.reverse]
  | '\n' :: cs, acc => String.mk acc.reverse :: splitLinesAux cs []
  | c :: cs, acc => splitLinesAux cs (c :: acc)

/-- str.splitlines (newline-only model). -/
def pySplitlines (s : String) : List String :=
  if s.data = [] then [] else
  (fun l => if l.getLastD "" = "" then l.dropLast else l) (splitLinesAux s.data [])

/-- str.strip with no argument: trim whitespace from both ends. -/
def pyStrip (s : String) : String :=
  String.mk (((s.data.dropWhile Char.isWhitespace).reverse.dropWhile
    Char.isWhitespace).reverse)

/-- str.split with no argument helper: split on whitespace runs, drop empties. -/
def splitWsAux : List Char → List Char → List String
  | [], acc => if acc = [] then [] else [String.mk acc.reverse]
  | c :: cs, acc =>
    if c.isWhitespace then
      if acc = [] then splitWsAux cs [] else String.mk acc.reverse :: splitWsAux cs []
    else splitWsAux cs (c :: acc)

def pySplitWs (s : String) : List String := splitWsAux s.data []

/-- ast.literal_eval, modelled for the quoted string literals used by
destination declarations; any other text is returned verbatim. -/
def squote : Char := Char.ofNat 39

def literal_eval (s : String) : String :=
  if 2 ≤ s.data.length ∧ s.data.headD ' ' = s.data.getLastD ' ' ∧
      (s.data.headD ' ' = squote ∨ s.data.headD ' ' = '"') then
    String.mk ((s.data.drop 1).dropLast)
  else s

/-- Remainder of line.split(" = ", 1)[1]; call sites guarantee the separator
occurs (the line starts with a declaration keyword containing it). -/
def afterSepAux (sep : List Char) : List Char → Option (List Char)
  | [] => none
  | c :: cs =>
    if sep.isPrefixOf (c :: cs) then some ((c :: cs).drop sep.length)
    else afterSepAux sep cs

def sepEq : String := " = "

def pySplitRest (sep s : String) : String :=
  match afterSepAux sep.data s.data with
  | some r => String.mk r
  | none => s

def PYTHON_SHEBANGS : List String := ["#!/usr/bin/env python"]

def declKw1 : String := "DEPLOY_TARGET = "

def declKw2 : String := "DEPLOYMENT_DESTINATION = "

/-- Whether a line is a recognized destination declaration (line 146). -/
def isDeclLine (line : String) : Bool := strStarts line declKw1 || strStarts line declKw2

/-- The destination-declaration scan of find_deployables (lines 144-148):
walk the first five lines and break at the first declaration line. -/
def scanDestination : List String → Option String
  | [] => none
  | line :: rest =>
    if isDeclLine line then some (literal_eval (pySplitRest sepEq line))
    else scanDestination rest

inductive DiscErr
  | indexError
  | outOfFuel
deriving DecidableEq, Repr

def dotPy : String := ".py"

/-- Tail of find_deployables for an accepted candidate (lines 144-152). -/
def classifyRest (path : Path) (guess : Bool) (lines : List String) :
    Except DiscErr (Option (Path × Path)) :=
  match scanDestination (lines.take 5) with
  | some destination => .ok (some (path, pathOfString destination))
  | none =>
    if guess then .ok (some (path, relative_to path (path_parent path))) else .ok none

/-- Per-file logic of find_deployables (lines 139-152).  The suffix test short
circuits: only when the suffix is not ".py" is lines[0] evaluated, and on an
empty file that subscript raises IndexError. -/
def classifyFile (fs : FS) (path : Path) (guess : Bool) :
    Except DiscErr (Option (Path × Path)) :=
  if path_suffix path ≠ dotPy then
    match pySplitlines (fs.readText path) with
    | [] => .error .indexError
    | l0 :: rest =>
      if PYTHON_SHEBANGS.any (fun sh => strStarts l0 sh) then
        classifyRest path guess (l0 :: rest)
      else .ok none
  else classifyRest path guess (pySplitlines (fs.readText path))

/-- find_deployables (lines 127-152).  The fuel only bounds the recursion of
the model; the Python generator recurses on the real directory tree. -/
def find_deployables (fs : FS) : Nat → List Path → Bool →
    Except DiscErr (List (Path × Path))
  | _, [], _ => .ok []
  | 0, _ :: _, _ => .error .outOfFuel
  | fuel + 1, p :: rest, guess =>
    if fs.isDir p then
      match find_deployables fs fuel ((fs.children p).filter
          (fun c => decide ((path_name c).data.headD '.' ∉ ['.', '_']))) false with
      | .error e => .error e
      | .ok sub =>
        match find_deployables fs fuel rest guess with
        | .error e => .error e
        | .ok restR => .ok (sub ++ restR)
    else if fs.isFile p then
      match classifyFile fs p guess with
      | .error e => .error e
      | .ok r =>
        match find_deployables fs fuel rest guess with
        | .error e => .error e
        | .ok restR => .ok ((match r with | some pr => [pr] | none => []) ++ restR)
    else find_deployables fs fuel rest guess

def importKw : String := "import "

def fromKw : String := "from "

def dotPyi : String := ".pyi"

/-- Line scan of one queued file in get_dependencies (lines 261-269). -/
def processLines (fs : FS) (par : Path) :
    List String → List (Path × String) → List Path → List (Path × String) × List Path
  | [], deps, q => (deps, q)
  | line :: rest, deps, q =>
    if strStarts (pyStrip line) importKw || strStarts (pyStrip line) fromKw then
      (fun mod_name =>
        (fun mod_path =>
          if fs.isFile mod_path ∧ mod_path ∉ deps.map Prod.fst then
            processLines fs par rest (deps ++ [(mod_path, mod_name)]) (q ++ [mod_path])
          else processLines fs par rest deps q)
        (par ++ [mod_name ++ dotPy]))
      (((pySplitWs (pyStrip line)).drop 1).headD "")
    else processLines fs par rest deps q

/-- Stub-file seeding of get_dependencies (lines 256-259). -/
def initDeps (fs : FS) (path : Path) : List (Path × String) :=
  if pySuffixes (path_name path) = [dotPy] then
    if fs.pathExists (path_parent path ++ [pyStem (path_name path) ++ dotPyi]) then
      [(path_parent path ++ [pyStem (path_name path) ++ dotPyi], path_stem path)]
    else []
  else []

/-- The distinct file paths of the filesystem; their count bounds the queue. -/
def fsFileKeys (fs : FS) : List Path := (fs.files.map Prod.fst).dedup

/-- Worklist loop of get_dependencies (lines 260-269), with explicit fuel.
Python iterates over the growing queue list; this pops the front and appends
newly discovered modules at the back, which visits the same files in the
same order. -/
def scanLoopFuel (fs : FS) : Nat → List Path → List (Path × String) →
    Option (List (Path × String))
  | _, [], deps => some deps
  | 0, _ :: _, _ => none
  | fuel + 1, p :: rest, deps =>
    scanLoopFuel fs fuel
      (rest ++ (processLines fs (path_parent p) (pySplitlines (fs.readText p)) deps []).2)
      (processLines fs (path_parent p) (pySplitlines (fs.readText p)) deps []).1

/-- get_dependencies (lines 253-270).  The fuel is sufficient (proved below),
so the none branch is unreachable. -/
def get_dependencies (fs : FS) (path : Path) : List Path :=
  match scanLoopFuel fs ((fsFileKeys fs).length + 1) [path] (initDeps fs path) with
  | some deps => deps.map Prod.fst
  | none => []

/-- Dict lookup on an insertion-ordered association list. -/
def mlookup (m : List (Path × Path)) (k : Path) : Option Path :=
  (m.find? (fun e => decide (e.1 = k))).map Prod.snd

/-- Destination of one source entry (lines 71-73 and 85-87, identical code):
re-root under the destination root relative to the given root, and rewrite
the stem when it equals the main source's stem. -/
def destFor (destination_root main_destination source_root main_path source : Path) :
    Path :=
  if path_stem source = path_stem main_path then
    with_stem (destination_root ++ relative_to source source_root)
      (path_stem main_destination)
  else destination_root ++ relative_to source source_root

/-- Layer-1 mapping build of deploy_file (lines 69-81): insert the main file
and its dependencies, failing with both sources on a duplicate key. -/
def insertSources (droot mdest sroot main_path : Path) :
    List Path → List (Path × Path) → Except (Path × Path × Path) (List (Path × Path))
  | [], m => .ok m
  | s :: rest, m =>
    match mlookup m (destFor droot mdest sroot main_path s) with
    | some prev => .error (prev, s, destFor droot mdest sroot main_path s)
    | none =>
      insertSources droot mdest sroot main_path rest
        (m ++ [(destFor droot mdest sroot main_path s, s)])

/-- chain([main_path], get_dependencies(main_path)) of line 70. -/
def sourcesChain (fs : FS) (main_path : Path) : List Path :=
  main_path :: get_dependencies fs main_path

/-- Template overlay of deploy_file (lines 82-89): walk the template entries
and insert each only when its destination key is not yet occupied. -/
def addTemplatesList (fs : FS) (droot mdest main_path troot : Path) :
    List Path → List (Path × Path) → List (Path × Path)
  | [], m => m
  | s :: rest, m =>
    if mlookup m (destFor droot mdest troot main_path s) = none then
      addTemplatesList fs droot mdest main_path troot rest
        (m ++ [(destFor droot mdest troot main_path s, s)])
    else addTemplatesList fs droot mdest main_path troot rest m

def addTemplates (fs : FS) (templ : Option Path) (droot mdest main_path : Path)
    (m : List (Path × Path)) : List (Path × Path) :=
  match templ with
  | none => m
  | some template => addTemplatesList fs droot mdest main_path template
      (iterdir fs template) m

/-- Per-entry outcome of materialization (lines 92-105): noop is the blank
"unchanged" sign, err the "Path already taken" conflict. -/
inductive PyAction
  | noop
  | update
  | new
  | err
deriving DecidableEq, Repr

/-- One materialization step (lines 92-104). -/
def materializeEntry (fs : FS) (dest source : Path) : FS × PyAction :=
  if fs.isFile dest then
    if fs.readBytes dest = fs.readBytes source then (fs, .noop)
    else (fs.writeFile dest (fs.readBytes source), .update)
  else if fs.pathExists dest then (fs, .err)
  else (fs.writeFile dest (fs.readBytes source), .new)

/-- The materialization loop of deploy_file (lines 90-112), returning the
final filesystem, the per-entry outcomes, and anything_updated. -/
def materialize : FS → List (Path × Path) → FS × List (Path × Path × PyAction) × Bool
  | fs, [] => (fs, [], false)
  | fs, (dest, source) :: rest =>
    (fun r =>
      (fun rest' =>
        (rest'.1, (dest, source, r.2) :: rest'.2.1,
          (decide (r.2 = PyAction.new ∨ r.2 = PyAction.update) || rest'.2.2)))
      (materialize r.1 rest))
    (materializeEntry fs dest source)

/-- The archive write loop (lines 120-122), reading each source as written. -/
def archiveWrites (apath droot : Path) : FS → List (Path × Path) → FS
  | fs, [] => fs
  | fs, (dest, source) :: rest =>
    archiveWrites apath droot
      (fs.writeFile (apath ++ relative_to dest droot) (fs.readBytes source)) rest

/-- One archive slot (lines 116-123): delete the dated snapshot directory,
recreate it, and repopulate it from the mapping. -/
def archiveOne (fs : FS) (droot slot : Path) (today : String)
    (m : List (Path × Path)) : FS :=
  archiveWrites (droot ++ slot ++ [today]) droot
    ((fs.rmtree (droot ++ slot ++ [today])).mkdirParents (droot ++ slot ++ [today])) m

def archiveAll (fs : FS) (droot : Path) (archives : List Path) (today : String)
    (m : List (Path × Path)) : FS :=
  archives.foldl (fun f a => archiveOne f droot a today m) fs

inductive DeployFileOutcome
  | destNotFound
  | collision (first second dest : Path)
  | completed (mapping : List (Path × Path)) (actions : List (Path × Path × PyAction))
      (anythingUpdated : Bool)
deriving DecidableEq, Repr

/-- Main-destination resolution of deploy_file (lines 60-68). -/
def resolveDestination (fs : FS) (destination main_path : Path) :
    Option (Path × Path) :=
  if fs.isDir destination then some (destination, destination ++ [path_name main_path])
  else if fs.isDir (path_parent destination) then some (path_parent destination, destination)
  else none

/-- deploy_file (lines 57-124): resolve the destination, build the mapping
from the main file, its dependencies and the template overlay, materialize,
and archive when anything changed and archive slots are configured. -/
def deploy_file (fs : FS) (templ : Option Path) (arch : List Path) (today : String)
    (main_path destination : Path) : DeployFileOutcome × FS :=
  match resolveDestination fs destination main_path with
  | none => (.destNotFound, fs)
  | some (destination_root, main_destination) =>
    match insertSources destination_root main_destination (path_parent main_path)
        main_path (sourcesChain fs main_path) [] with
    | .error e => (.collision e.1 e.2.1 e.2.2, fs)
    | .ok m0 =>
      (fun m =>
        (fun r =>
          if arch ≠ [] ∧ r.2.2 then
            (.completed m r.2.1 r.2.2, archiveAll r.1 destination_root arch today m)
          else (.completed m r.2.1 r.2.2, r.1))
        (materialize fs m))
      (addTemplates fs templ destination_root main_destination main_path m0)

/-- The per-target loop body of deploy (lines 51-53): run deploy_file on each
(source, destination) pair in turn, whatever each outcome is. -/
def deployPairs (templ : Option Path) (arch : List Path) (today : String) :
    FS → List (Path × Path) → FS × List DeployFileOutcome
  | fs, [] => (fs, [])
  | fs, (src, dst) :: rest =>
    (fun r =>
      (fun rest' => (rest'.1, r.1 :: rest'.2))
      (deployPairs templ arch today r.2 rest))
    (deploy_file fs templ arch today src dst)

/-- deploy (lines 41-54): run every pair and return None (the function is
annotated -> None and ends with return None; the booleans of deploy_file are
discarded). -/
def deploy (fs : FS) (templ : Option Path) (arch : List Path) (today : String)
    (pairs : List (Path × Path)) : FS × Option Bool :=
  ((deployPairs templ arch today fs pairs).1, none)

/-- Python truthiness of an Optional[bool]: None is falsy. -/
def pyTruthy : Option Bool → Bool
  | none => false
  | some b => b

def yesStr : String := "y"

/-- Exit code of main (lines 33-38): 1 when tests failed and the operator
declined, else 0 when deploy's return value is truthy and 1 otherwise.
run_tests and the operator's answer are external inputs of the model. -/
def main_exit (fs : FS) (templ : Option Path) (arch : List Path) (today : String)
    (pairs : List (Path × Path)) (testErrors : List String) (answer : String) : Nat :=
  if testErrors ≠ [] ∧ pyStrip (String.mk (answer.data.map Char.toLower)) ≠ yesStr then 1
  else if pyTruthy (deploy fs templ arch today pairs).2 then 0 else 1

/-- The mapping of a completed deploy_file outcome, if any. -/
def outcomeMapping : DeployFileOutcome → Option (List (Path × Path))
  | .completed m _ _ => some m
  | _ => none

/- Concrete filesystems used as witnesses and counterexamples. -/

/-- job.py imports worker.py and is destined for out/worker: the rewritten
main destination collides with the dependency's destination. -/
def fsCollision : FS :=
  ⟨[["out"]], [(["src", "job.py"], "import worker\n"), (["src", "worker.py"], "x")]⟩

/-- A source file with two destination declarations in its first five lines. -/
def fsTwoDecl : FS :=
  ⟨[], [(["a.py"], "DEPLOY_TARGET = \"first\"\nDEPLOY_TARGET = \"second\"\n")]⟩

/-- An existing empty file whose suffix is not ".py". -/
def fsEmptyTxt : FS := ⟨[], [(["x.txt"], "")]⟩

/-- Template directory holding TARGET.cfg while the main deployable job.py is
destined for out/worker. -/
def fsTemplateScn : FS :=
  ⟨[["out"], ["tpl"]], [(["src", "job.py"], ""), (["tpl", "TARGET.cfg"], "cfg")]⟩

/-- A mapping whose destination is an existing directory. -/
def fsDirDest : FS := ⟨[["d"]], [(["s"], "a")]⟩

def mDirDest : List (Path × Path) := [(["d"], ["s"])]

/-- A plain one-entry mapping onto a fresh destination. -/
def fsPlain : FS := ⟨[], [(["s"], "a")]⟩

def mPlain : List (Path × Path) := [(["d"], ["s"])]

/-- Template entry whose destination key is already occupied by the main file. -/
def fsTplOccupied : FS := ⟨[["tpl"]], [(["src", "a"], "x"), (["tpl", "a"], "y")]⟩

/- Association-list lookup lemmas shared by several claims. -/

theorem mlookup_cons (e : Path × Path) (l : List (Path × Path)) (k : Path) :
    mlookup (e :: l) k = if e.1 = k then some e.2 else mlookup l k := by
  by_cases h : e.1 = k <;> simp [mlookup, List.find?, h]

theorem mlookup_append_left (m m' : List (Path × Path)) (k : Path)
    (h : (mlookup m k).isSome) : mlookup (m ++ m') k = mlookup m k := by
  induction m with
  | nil => simp [mlookup] at h
  | cons e rest ih =>
    rw [List.cons_append, mlookup_cons, mlookup_cons]
    by_cases he : e.1 = k
    · simp [he]
    · rw [mlookup_cons] at h
      simp only [he, if_false] at h ⊢
      exact ih h

/-- C10: discovery on an existing regular file whose suffix is not ".py" and
whose content is empty evaluates lines[0] on an empty line list, so the
interpreter-marker check raises an index error instead of skipping the file. -/
theorem C10_empty_file_shebang_index_error :
    find_deployables fsEmptyTxt 1 [["x.txt"]] true = .error .indexError := rfl

/-- C3 (code bug): main never exits 0.  deploy is annotated -> None and ends
with return None, so `success = deploy(config)` is always None (falsy) and
`return 0 if success else 1` yields 1 even on a fully successful run. -/
theorem C3_main_exit_always_one (fs : FS) (templ : Option Path) (arch : List Path)
    (today : String) (pairs : List (Path × Path)) (testErrors : List String)
    (answer : String) :
    main_exit fs templ arch today pairs testErrors answer = 1 := by
  unfold main_exit
  split
  · rfl
  · simp [deploy, pyTruthy]

/-- C2 (counterexample): with two declaration lines in the window, discovery
yields the first literal, not the last; the loop breaks at the first match. -/
theorem C2_counterexample_first_match_wins :
    find_deployables fsTwoDecl 1 [["a.py"]] true = .ok [(["a.py"], ["first"])] ∧
      (["first"] : Path) ≠ ["second"] := ⟨rfl, by decide⟩

/-- C4 (counterexample): in the active path (deploy_file), the scenario's
mapping binds out/TARGET.cfg to the template file and has no out/worker.cfg
entry — the fixed placeholder stem TARGET is not rewritten. -/
theorem C4_counterexample_placeholder_not_rewritten :
    (outcomeMapping (deploy_file fsTemplateScn (some ["tpl"]) [] "2026-10-12"
        ["src", "job.py"] ["out", "worker"]).1).map
      (fun m => (mlookup m ["out", "TARGET.cfg"], mlookup m ["out", "worker.cfg"])) =
    some (some ["tpl", "TARGET.cfg"], none) := rfl

/-- C6 (counterexample): a mapping entry whose destination is an existing
directory is classified as a conflict by both runs, so the second run does
not classify every entry as unchanged. -/
theorem C6_counterexample_conflict_persists :
    (materialize (materialize fsDirDest mDirDest).1 mDirDest).2.1 =
      [(["d"], ["s"], PyAction.err)] ∧ PyAction.err ≠ PyAction.noop :=
  ⟨rfl, by decide⟩

/-- C1: when building the mapping inserts a destination key that is already
present bound to a different source, deploy_file fails with a collision error
naming both sources, writes nothing (the filesystem is returned unchanged),
and the deploy loop continues with the remaining pairs. -/
theorem C1_collision_fails_whole_build (fs : FS) (templ : Option Path)
    (arch : List Path) (today : String) (main_path destination : Path)
    (droot mdest prev src d : Path) (rest : List (Path × Path))
    (hres : resolveDestination fs destination main_path = some (droot, mdest))
    (hne : prev ≠ src)
    (hcol : insertSources droot mdest (path_parent main_path) main_path
      (sourcesChain fs main_path) [] = .error (prev, src, d)) :
    deploy_file fs templ arch today main_path destination =
      (.collision prev src d, fs) ∧
    deployPairs templ arch today fs ((main_path, destination) :: rest) =
      ((deployPairs templ arch today fs rest).1,
        .collision prev src d :: (deployPairs templ arch today fs rest).2) := by
  have h1 : deploy_file fs templ arch today main_path destination =
      (.collision prev src d, fs) := by
    unfold deploy_file
    rw [hres]
    simp only [hcol]
  exact ⟨h1, by simp [deployPairs, h1]⟩

/-- C1 witness: the collision scenario of fsCollision, with distinct sources. -/
theorem C1_witness :
    (["src", "job.py"] : Path) ≠ ["src", "worker.py"] ∧
    deploy_file fsCollision none [] "2026-10-12" ["src", "job.py"] ["out", "worker"] =
      (.collision ["src", "job.py"] ["src", "worker.py"] ["out", "worker.py"],
        fsCollision) :=
  ⟨by decide,
    (C1_collision_fails_whole_build fsCollision none [] "2026-10-12"
      ["src", "job.py"] ["out", "worker"] ["out"] ["out", "worker"]
      ["src", "job.py"] ["src", "worker.py"] ["out", "worker.py"] []
      (by rfl) (by decide) (by rfl)).1⟩

/-- C5: main-destination resolution has exactly three branches: an existing
directory destination resolves to destination/name, else an existing parent
directory resolves to the destination itself, else deploy_file fails with the
destination-not-found outcome, leaves the filesystem unchanged, and the
deploy loop continues with the remaining pairs. -/
theorem C5_destination_resolution_branches (fs : FS) (templ : Option Path)
    (arch : List Path) (today : String) (main_path destination : Path)
    (rest : List (Path × Path)) :
    if fs.isDir destination then
      resolveDestination fs destination main_path =
        some (destination, destination ++ [path_name main_path]) ∧
      (deploy_file fs templ arch today main_path destination).1 ≠ .destNotFound
    else if fs.isDir (path_parent destination) then
      resolveDestination fs destination main_path =
        some (path_parent destination, destination) ∧
      (deploy_file fs templ arch today main_path destination).1 ≠ .destNotFound
    else
      deploy_file fs templ arch today main_path destination = (.destNotFound, fs) ∧
      deployPairs templ arch today fs ((main_path, destination) :: rest) =
        ((deployPairs templ arch today fs rest).1,
          .destNotFound :: (deployPairs templ arch today fs rest).2) := by
  by_cases h1 : fs.isDir destination
  · have hr : resolveDestination fs destination main_path =
        some (destination, destination ++ [path_name main_path]) := by
      simp [resolveDestination, h1]
    simp only [h1, if_true]
    refine ⟨hr, ?_⟩
    unfold deploy_file
    rw [hr]
    cases hins : insertSources destination (destination ++ [path_name main_path])
        (path_parent main_path) main_path (sourcesChain fs main_path) [] with
    | error e => simp [hins]
    | ok m0 =>
      simp only [hins]
      split <;> simp
  · by_cases h2 : fs.isDir (path_parent destination)
    · have hr : resolveDestination fs destination main_path =
          some (path_parent destination, destination) := by
        simp [resolveDestination, h1, h2]
      simp only [h1, h2, if_false, if_true]
      refine ⟨hr, ?_⟩
      unfold deploy_file
      rw [hr]
      cases hins : insertSources (path_parent destination) destination
          (path_parent main_path) main_path (sourcesChain fs main_path) [] with
      | error e => simp [hins]
      | ok m0 =>
        simp only [hins]
        split <;> simp
    · have hr : resolveDestination fs destination main_path = none := by
        simp [resolveDestination, h1, h2]
      have h3 : deploy_file fs templ arch today main_path destination =
          (.destNotFound, fs) := by
        unfold deploy_file
        rw [hr]
      simp only [h1, h2, if_false]
      exact ⟨h3, by simp [deployPairs, h3]⟩

/-- C5 witness: with neither the destination nor its parent a directory, the
scenario fails with destination-not-found and the filesystem is unchanged. -/
theorem C5_witness :
    deploy_file fsPlain none [] "2026-10-12" ["src", "app.py"] ["srv", "bin", "app"] =
      (.destNotFound, fsPlain) := by
  have h := C5_destination_resolution_branches fsPlain none [] "2026-10-12"
    ["src", "app.py"] ["srv", "bin", "app"] []
  simp only [show fsPlain.isDir ["srv", "bin", "app"] = false from rfl,
    show fsPlain.isDir (path_parent ["srv", "bin", "app"]) = false from rfl,
    Bool.false_eq_true, if_false] at h
  exact h.1

/-- C9: the template overlay never overrides an occupied destination key:
after the template phase every key that was already bound still maps to its
original source. -/
theorem C9_template_never_overrides (fs : FS) (templ : Option Path)
    (droot mdest main_path : Path) (m : List (Path × Path)) (k : Path)
    (h : (mlookup m k).isSome) :
    mlookup (addTemplates fs templ droot mdest main_path m) k = mlookup m k := by
  cases templ with
  | none => rfl
  | some troot =>
    show mlookup (addTemplatesList fs droot mdest main_path troot
      (iterdir fs troot) m) k = mlookup m k
    generalize iterdir fs troot = L
    induction L generalizing m with
    | nil => rfl
    | cons e rest ih =>
      simp only [addTemplatesList]
      split
      · have hl : mlookup (m ++ [(destFor droot mdest troot main_path e, e)]) k =
            mlookup m k := mlookup_append_left m _ k h
        rw [ih (m ++ [(destFor droot mdest troot main_path e, e)])
          (by rw [hl]; exact h)]
        exact hl
      · exact ih m h

/-- C9 witness: a template entry whose key is occupied by the main file is
skipped, and the occupied key still maps to the original source. -/
theorem C9_witness :
    (mlookup [(["out", "a"], ["src", "a"])] ["out", "a"]).isSome = true ∧
    mlookup (addTemplates fsTplOccupied (some ["tpl"]) ["out"] ["out", "a"]
        ["src", "a"] [(["out", "a"], ["src", "a"])]) ["out", "a"] =
      mlookup [(["out", "a"], ["src", "a"])] ["out", "a"] :=
  ⟨by decide,
    C9_template_never_overrides fsTplOccupied (some ["tpl"]) ["out"] ["out", "a"]
      ["src", "a"] [(["out", "a"], ["src", "a"])] ["out", "a"] (by decide)⟩

/- Termination of the dependency worklist (claim C7). -/

/-- Number of filesystem file paths not yet recorded as dependencies. -/
def missingCount (fs : FS) (deps : List (Path × String)) : Nat :=
  ((fsFileKeys fs).filter (fun p => decide (p ∉ deps.map Prod.fst))).length

theorem isFile_mem_fsFileKeys (fs : FS) (p : Path) (h : fs.isFile p = true) :
    p ∈ fsFileKeys fs := by
  have h' : (fs.files.find? (fun e => decide (e.1 = p))).isSome = true := by
    simpa [FS.isFile, FS.lookupFile] using h
  obtain ⟨e, he, hp⟩ := List.find?_isSome.mp h'
  have : e.1 = p := of_decide_eq_true hp
  rw [fsFileKeys, List.mem_dedup, ← this]
  exact List.mem_map.mpr ⟨e, he, rfl⟩

theorem missingCount_append_singleton (fs : FS) (deps : List (Path × String))
    (a : Path × String) (hf : fs.isFile a.1 = true)
    (hnot : a.1 ∉ deps.map Prod.fst) :
    missingCount fs (deps ++ [a]) + 1 ≤ missingCount fs deps := by
  have hmem : a.1 ∈ (fsFileKeys fs).filter
      (fun p => decide (p ∉ deps.map Prod.fst)) :=
    List.mem_filter.mpr ⟨isFile_mem_fsFileKeys fs a.1 hf, by simpa using hnot⟩
  have hnd : ((fsFileKeys fs).filter
      (fun p => decide (p ∉ deps.map Prod.fst))).Nodup :=
    (List.nodup_dedup _).filter _
  have hsplit : (fsFileKeys fs).filter
      (fun p => decide (p ∉ (deps ++ [a]).map Prod.fst)) =
      ((fsFileKeys fs).filter (fun p => decide (p ∉ deps.map Prod.fst))).filter
        (fun p => p != a.1) := by
    rw [List.filter_filter]
    apply List.filter_congr
    intro p hp
    by_cases h1 : p ∈ deps.map Prod.fst <;> by_cases h2 : p = a.1 <;>
      simp [h1, h2, List.map_append]
  have herase := hnd.erase_eq_filter a.1
  rw [missingCount, missingCount, hsplit, ← herase,
    List.length_erase_of_mem hmem]
  have hpos : 0 < ((fsFileKeys fs).filter
      (fun p => decide (p ∉ deps.map Prod.fst))).length :=
    List.length_pos.mpr (fun hnil => by rw [hnil] at hmem; exact absurd hmem (by simp))
  omega

/-- Specification of the line scan: it appends a block of fresh, distinct
file entries to the dependency map and the queue. -/
theorem processLines_spec (fs : FS) (par : Path) (lines : List String) :
    ∀ deps q, ∃ A : List (Path × String),
      processLines fs par lines deps q = (deps ++ A, q ++ A.map Prod.fst) ∧
      (∀ x ∈ A, fs.isFile x.1 = true ∧ x.1 ∉ deps.map Prod.fst) ∧
      (A.map Prod.fst).Nodup := by
  induction lines with
  | nil =>
    intro deps q
    exact ⟨[], by simp [processLines], by simp, by simp⟩
  | cons line rest ih =>
    intro deps q
    simp only [processLines]
    split
    · split
      · rename_i hline hcond
        obtain ⟨A', heq, hprop, hnd⟩ := ih
          (deps ++ [(par ++ [((pySplitWs (pyStrip line)).drop 1).headD "" ++ dotPy],
            ((pySplitWs (pyStrip line)).drop 1).headD "")])
          (q ++ [par ++ [((pySplitWs (pyStrip line)).drop 1).headD "" ++ dotPy]])
        refine ⟨(par ++ [((pySplitWs (pyStrip line)).drop 1).headD "" ++ dotPy],
          ((pySplitWs (pyStrip line)).drop 1).headD "") :: A', ?_, ?_, ?_⟩
        · rw [heq, List.append_assoc, List.append_assoc, List.singleton_append,
            List.map_cons, List.singleton_append]
        · intro x hx
          rcases List.mem_cons.mp hx with hx | hx
          · subst hx
            exact ⟨hcond.1, hcond.2⟩
          · refine ⟨(hprop x hx).1, ?_⟩
            have := (hprop x hx).2
            rw [List.map_append] at this
            exact fun hc => this (List.mem_append.mpr (Or.inl hc))
        · rw [List.map_cons, List.nodup_cons]
          refine ⟨?_, hnd⟩
          intro hc
          obtain ⟨x, hx, hx1⟩ := List.mem_map.mp hc
          have := (hprop x hx).2
          rw [List.map_append] at this
          exact this (List.mem_append.mpr (Or.inr (by simp [hx1])))
      · exact ih deps q
    · exact ih deps q

theorem missingCount_append (fs : FS) (A : List (Path × String)) :
    ∀ deps, (∀ x ∈ A, fs.isFile x.1 = true ∧ x.1 ∉ deps.map Prod.fst) →
      (A.map Prod.fst).Nodup →
      missingCount fs (deps ++ A) + A.length ≤ missingCount fs deps := by
  induction A with
  | nil => intro deps _ _; simp
  | cons a A' ih =>
    intro deps h hnd
    have h1 := missingCount_append_singleton fs deps a
      (h a (List.mem_cons_self a A')).1 (h a (List.mem_cons_self a A')).2
    rw [List.map_cons, List.nodup_cons] at hnd
    have h2 := ih (deps ++ [a]) (fun x hx => ⟨(h x (List.mem_cons_of_mem a hx)).1, by
      rw [List.map_append]
      intro hc
      rcases List.mem_append.mp hc with hc | hc
      · exact (h x (List.mem_cons_of_mem a hx)).2 hc
      · have hxa : x.1 = a.1 := by simpa using hc
        exact hnd.1 (List.mem_map.mpr ⟨x, hx, hxa⟩)⟩) hnd.2
    rw [List.append_assoc, List.singleton_append] at h2
    simp only [List.length_cons]
    omega

/-- With fuel exceeding the queue length plus the number of unrecorded files,
the worklist loop completes and the dependency keys stay distinct. -/
theorem scanLoopFuel_some (fs : FS) :
    ∀ fuel queue deps, (deps.map Prod.fst).Nodup →
      queue.length + missingCount fs deps ≤ fuel →
      ∃ r, scanLoopFuel fs fuel queue deps = some r ∧ (r.map Prod.fst).Nodup := by
  intro fuel
  induction fuel with
  | zero =>
    intro queue deps hnd hb
    cases queue with
    | nil => exact ⟨deps, rfl, hnd⟩
    | cons p rest => simp at hb
  | succ n ihf =>
    intro queue deps hnd hb
    cases queue with
    | nil => exact ⟨deps, rfl, hnd⟩
    | cons p rest =>
      obtain ⟨A, heq, hprop, hAnd⟩ :=
        processLines_spec fs (path_parent p) (pySplitlines (fs.readText p)) deps []
      have hnd' : ((deps ++ A).map Prod.fst).Nodup := by
        rw [List.map_append]
        refine hnd.append hAnd (List.disjoint_left.mpr ?_)
        intro x hx hx'
        obtain ⟨e, he, he1⟩ := List.mem_map.mp hx'
        exact (hprop e he).2 (he1 ▸ hx)
      have hmiss := missingCount_append fs A deps hprop hAnd
      have hb' : (rest ++ A.map Prod.fst).length + missingCount fs (deps ++ A) ≤ n := by
        rw [List.length_append, List.length_map]
        simp only [List.length_cons] at hb
        omega
      obtain ⟨r, hr, hrnd⟩ := ihf (rest ++ A.map Prod.fst) (deps ++ A) hnd' hb'
      refine ⟨r, ?_, hrnd⟩
      simp only [scanLoopFuel, heq]
      simpa using hr

/-- C7: the dependency scan terminates on every input (self-imports and
mutual imports included): the worklist loop completes within its fuel,
get_dependencies returns the resulting finite ordered list, and every file
appears in it exactly once. -/
theorem C7_dependency_scan_terminates (fs : FS) (path : Path) :
    ∃ deps, scanLoopFuel fs ((fsFileKeys fs).length + 1) [path]
        (initDeps fs path) = some deps ∧
      get_dependencies fs path = deps.map Prod.fst ∧
      (deps.map Prod.fst).Nodup := by
  have hinit : ((initDeps fs path).map Prod.fst).Nodup := by
    unfold initDeps
    split
    · split <;> simp
    · simp
  have hb : ([path] : List Path).length + missingCount fs (initDeps fs path) ≤
      (fsFileKeys fs).length + 1 := by
    have := List.length_filter_le
      (fun p => decide (p ∉ (initDeps fs path).map Prod.fst)) (fsFileKeys fs)
    simp only [List.length_cons, List.length_nil, missingCount]
    omega
  obtain ⟨r, hr, hrnd⟩ := scanLoopFuel_some fs ((fsFileKeys fs).length + 1)
    [path] (initDeps fs path) hinit hb
  refine ⟨r, hr, ?_, hrnd⟩
  unfold get_dependencies
  rw [hr]

/- Effect of a single write on lookups (used by claims C6 and C8). -/

theorem find?_update_self (l : List (Path × String)) (k : Path) (c : String)
    (h : (l.find? (fun e => decide (e.1 = k))).isSome = true) :
    ((l.map (fun e => if e.1 = k then (k, c) else e)).find?
      (fun e => decide (e.1 = k))).map Prod.snd = some c := by
  induction l with
  | nil => simp at h
  | cons e rest ih =>
    by_cases he : e.1 = k
    · rw [List.map_cons, if_pos he, List.find?_cons_of_pos _ (by simp)]
      rfl
    · rw [List.find?_cons_of_neg _ (by simp [he])] at h
      rw [List.map_cons, if_neg he, List.find?_cons_of_neg _ (by simp [he])]
      exact ih h

theorem find?_update_other (l : List (Path × String)) (k : Path) (c : String)
    (p : Path) (hpk : p ≠ k) :
    (l.map (fun e => if e.1 = k then (k, c) else e)).find?
      (fun e => decide (e.1 = p)) = l.find? (fun e => decide (e.1 = p)) := by
  induction l with
  | nil => rfl
  | cons e rest ih =>
    have hkp : ¬k = p := fun h => hpk h.symm
    by_cases he : e.1 = k
    · rw [List.map_cons, if_pos he,
        List.find?_cons_of_neg _ (by simp only [decide_eq_true_eq]; exact hkp),
        List.find?_cons_of_neg _ (by simp only [decide_eq_true_eq, he]; exact hkp)]
      exact ih
    · rw [List.map_cons, if_neg he]
      by_cases hep : e.1 = p
      · rw [List.find?_cons_of_pos _ (by simp [hep]),
          List.find?_cons_of_pos _ (by simp [hep])]
      · rw [List.find?_cons_of_neg _ (by simp [hep]),
          List.find?_cons_of_neg _ (by simp [hep])]
        exact ih

theorem lookupFile_writeFile (fs : FS) (k : Path) (c : String) (p : Path) :
    (fs.writeFile k c).lookupFile p = if p = k then some c else fs.lookupFile p := by
  unfold FS.writeFile
  split
  · rename_i hk
    by_cases hpk : p = k
    · subst hpk
      rw [if_pos rfl]
      exact find?_update_self fs.files p c (by simpa [FS.lookupFile] using hk)
    · rw [if_neg hpk]
      show ((fs.files.map _).find? _).map Prod.snd = _
      rw [find?_update_other fs.files k c p hpk]
      rfl
  · rename_i hk
    by_cases hpk : p = k
    · subst hpk
      rw [if_pos rfl]
      show ((fs.files ++ [(p, c)]).find? (fun e => decide (e.1 = p))).map Prod.snd =
        some c
      rw [List.find?_append]
      have hnone : fs.files.find? (fun e => decide (e.1 = p)) = none := by
        cases hfind : fs.files.find? (fun e => decide (e.1 = p)) with
        | none => rfl
        | some e => exact absurd (by simp [FS.lookupFile, hfind]) hk
      rw [hnone]
      simp [List.find?]
    · rw [if_neg hpk]
      show ((fs.files ++ [(k, c)]).find? (fun e => decide (e.1 = p))).map Prod.snd = _
      rw [List.find?_append]
      have hone : ([(k, c)].find? (fun e => decide (e.1 = p))) = none := by
        have hkp : ¬k = p := fun h => hpk h.symm
        simp [List.find?, hkp]
      rw [hone, Option.or_none]
      rfl

theorem dirs_writeFile (fs : FS) (k : Path) (c : String) :
    (fs.writeFile k c).dirs = fs.dirs := by
  unfold FS.writeFile
  split <;> rfl

theorem readBytes_writeFile (fs : FS) (k : Path) (c : String) (p : Path) :
    (fs.writeFile k c).readBytes p = if p = k then c else fs.readBytes p := by
  rw [FS.readBytes, lookupFile_writeFile]
  split <;> rfl

theorem isFile_writeFile (fs : FS) (k : Path) (c : String) (p : Path) :
    (fs.writeFile k c).isFile p = if p = k then true else fs.isFile p := by
  rw [FS.isFile, lookupFile_writeFile]
  split <;> rfl

theorem isFile_eq_of_lookup (fs1 fs2 : FS) (p : Path)
    (h : fs1.lookupFile p = fs2.lookupFile p) : fs1.isFile p = fs2.isFile p := by
  simp [FS.isFile, h]

theorem readBytes_eq_of_lookup (fs1 fs2 : FS) (p : Path)
    (h : fs1.lookupFile p = fs2.lookupFile p) : fs1.readBytes p = fs2.readBytes p := by
  simp [FS.readBytes, h]

theorem pathExists_eq_of_lookup (fs1 fs2 : FS) (p : Path)
    (h : fs1.lookupFile p = fs2.lookupFile p) (hd : fs1.dirs = fs2.dirs) :
    fs1.pathExists p = fs2.pathExists p := by
  simp [FS.pathExists, FS.isDir, FS.isFile, h, hd]

/- Materialization postcondition and idempotence (claim C6). -/

/-- After a conflict-free run whose sources are files and never reused as
destinations, every destination holds its source's original bytes, paths
outside the destination keys are untouched, and no directory changes. -/
theorem materialize_post (fs : FS) (m : List (Path × Path))
    (hnd : (m.map Prod.fst).Nodup)
    (hsrc : ∀ ds ∈ m, fs.isFile ds.2 = true)
    (hdisj : ∀ ds ∈ m, ∀ ds' ∈ m, ds.2 ≠ ds'.1)
    (hconf : ∀ ds ∈ m, fs.pathExists ds.1 = true → fs.isFile ds.1 = true) :
    (∀ ds ∈ m, (materialize fs m).1.isFile ds.1 = true ∧
      (materialize fs m).1.readBytes ds.1 = fs.readBytes ds.2) ∧
    (∀ p : Path, p ∉ m.map Prod.fst →
      (materialize fs m).1.lookupFile p = fs.lookupFile p) ∧
    (materialize fs m).1.dirs = fs.dirs := by
  induction m generalizing fs with
  | nil => exact ⟨by simp, fun p _ => rfl, rfl⟩
  | cons ds rest ih =>
    obtain ⟨d, s⟩ := ds
    have hmem : (d, s) ∈ (d, s) :: rest := List.mem_cons_self _ _
    have hnotfile : fs.pathExists d = true → fs.isFile d = true := hconf _ hmem
    -- characterize the first step
    have hstep : ((materializeEntry fs d s).1.isFile d = true ∧
        (materializeEntry fs d s).1.readBytes d = fs.readBytes s) ∧
        (∀ p : Path, p ≠ d →
          (materializeEntry fs d s).1.lookupFile p = fs.lookupFile p) ∧
        (materializeEntry fs d s).1.dirs = fs.dirs := by
      unfold materializeEntry
      by_cases hf : fs.isFile d = true
      · by_cases heq : fs.readBytes d = fs.readBytes s
        · rw [if_pos hf, if_pos heq]
          exact ⟨⟨hf, heq.symm ▸ rfl⟩, fun p _ => rfl, rfl⟩
        · rw [if_pos hf, if_neg heq]
          refine ⟨⟨?_, ?_⟩, fun p hp => ?_, dirs_writeFile fs d _⟩
          · rw [isFile_writeFile, if_pos rfl]
          · rw [readBytes_writeFile, if_pos rfl]
          · rw [lookupFile_writeFile, if_neg hp]
      · have hex : fs.pathExists d = false := by
          cases hpe : fs.pathExists d with
          | false => rfl
          | true => exact absurd (hnotfile hpe) (by simp [hf])
        rw [if_neg (by simp [hf]), if_neg (by simp [hex])]
        refine ⟨⟨?_, ?_⟩, fun p hp => ?_, dirs_writeFile fs d _⟩
        · rw [isFile_writeFile, if_pos rfl]
        · rw [readBytes_writeFile, if_pos rfl]
        · rw [lookupFile_writeFile, if_neg hp]
    obtain ⟨⟨hf1, hr1⟩, hun1, hd1⟩ := hstep
    -- the overall run continues on the written filesystem
    have hred : (materialize fs ((d, s) :: rest)).1 =
        (materialize (materializeEntry fs d s).1 rest).1 := by
      simp [materialize]
    rw [List.map_cons, List.nodup_cons] at hnd
    have hkey : d ∉ rest.map Prod.fst := hnd.1
    -- transfer the hypotheses to the written filesystem
    have ihres := ih (materializeEntry fs d s).1 hnd.2
      (fun e he => by
        have hne : e.2 ≠ d := hdisj e (List.mem_cons_of_mem _ he) (d, s) hmem
        rw [isFile_eq_of_lookup _ fs _ (hun1 e.2 hne)]
        exact hsrc e (List.mem_cons_of_mem _ he))
      (fun e he e' he' =>
        hdisj e (List.mem_cons_of_mem _ he) e' (List.mem_cons_of_mem _ he'))
      (fun e he hpe => by
        have hne : e.1 ≠ d := by
          intro hc
          exact hkey (hc ▸ List.mem_map.mpr ⟨e, he, rfl⟩)
        rw [isFile_eq_of_lookup _ fs _ (hun1 e.1 hne)]
        rw [pathExists_eq_of_lookup _ fs _ (hun1 e.1 hne) hd1] at hpe
        exact hconf e (List.mem_cons_of_mem _ he) hpe)
    obtain ⟨ihpost, ihun, ihdirs⟩ := ihres
    refine ⟨?_, ?_, ?_⟩
    · intro e he
      rcases List.mem_cons.mp he with he | he
      · subst he
        have hdk : (d, s).1 ∉ rest.map Prod.fst := hkey
        constructor
        · rw [hred, isFile_eq_of_lookup _ (materializeEntry fs d s).1 _ (ihun _ hdk)]
          exact hf1
        · rw [hred, readBytes_eq_of_lookup _ (materializeEntry fs d s).1 _ (ihun _ hdk)]
          exact hr1
      · refine ⟨by rw [hred]; exact (ihpost e he).1, ?_⟩
        rw [hred, (ihpost e he).2, readBytes_eq_of_lookup _ fs _ (hun1 e.2
          (hdisj e (List.mem_cons_of_mem _ he) (d, s) hmem))]
    · intro p hp
      rw [List.map_cons] at hp
      have hpd : p ≠ d := fun hc => hp (hc ▸ List.mem_cons_self _ _)
      have hprest : p ∉ rest.map Prod.fst := fun hc => hp (List.mem_cons_of_mem _ hc)
      rw [hred, ihun p hprest, hun1 p hpd]
    · rw [hred, ihdirs, hd1]

/-- A run in which every destination already holds its source's bytes makes
no change: every entry is classified unchanged and nothing is written. -/
theorem materialize_noop (fs : FS) (m : List (Path × Path))
    (h : ∀ ds ∈ m, fs.isFile ds.1 = true ∧ fs.readBytes ds.1 = fs.readBytes ds.2) :
    materialize fs m = (fs, m.map (fun ds => (ds.1, ds.2, PyAction.noop)), false) := by
  induction m with
  | nil => rfl
  | cons ds rest ih =>
    obtain ⟨d, s⟩ := ds
    have hmem := h (d, s) (List.mem_cons_self _ _)
    have hentry : materializeEntry fs d s = (fs, PyAction.noop) := by
      unfold materializeEntry
      rw [if_pos hmem.1, if_pos hmem.2]
    simp only [materialize, hentry, ih (fun e he => h e (List.mem_cons_of_mem _ he)),
      List.map_cons]
    rfl

/-- C6 (amended): provided the first run classifies no entry as conflict
(every existing destination is a regular file), the destination keys are
distinct, and the sources are regular files none of which is also a
destination, a second materialization of the same mapping on the resulting
tree classifies every entry as unchanged and performs zero writes. -/
theorem C6_amended_second_run_unchanged (fs : FS) (m : List (Path × Path))
    (hnd : (m.map Prod.fst).Nodup)
    (hsrc : ∀ ds ∈ m, fs.isFile ds.2 = true)
    (hdisj : ∀ ds ∈ m, ∀ ds' ∈ m, ds.2 ≠ ds'.1)
    (hconf : ∀ ds ∈ m, fs.pathExists ds.1 = true → fs.isFile ds.1 = true) :
    materialize (materialize fs m).1 m =
      ((materialize fs m).1, m.map (fun ds => (ds.1, ds.2, PyAction.noop)), false) := by
  obtain ⟨hpost, hunch, _⟩ := materialize_post fs m hnd hsrc hdisj hconf
  apply materialize_noop
  intro ds hds
  refine ⟨(hpost ds hds).1, ?_⟩
  rw [(hpost ds hds).2]
  have hnk : ds.2 ∉ m.map Prod.fst := by
    intro hc
    obtain ⟨e, he, he1⟩ := List.mem_map.mp hc
    exact hdisj ds hds e he he1.symm
  rw [readBytes_eq_of_lookup (materialize fs m).1 fs ds.2 (hunch ds.2 hnk)]

/-- C6 witness: a one-entry mapping onto a fresh destination; the second run
classifies the entry unchanged and leaves the filesystem as is. -/
theorem C6_witness :
    ((mPlain.map Prod.fst).Nodup ∧
      (∀ ds ∈ mPlain, fsPlain.isFile ds.2 = true) ∧
      (∀ ds ∈ mPlain, ∀ ds' ∈ mPlain, ds.2 ≠ ds'.1) ∧
      (∀ ds ∈ mPlain, fsPlain.pathExists ds.1 = true → fsPlain.isFile ds.1 = true)) ∧
    materialize (materialize fsPlain mPlain).1 mPlain =
      ((materialize fsPlain mPlain).1,
        mPlain.map (fun ds => (ds.1, ds.2, PyAction.noop)), false) :=
  ⟨⟨by decide, by decide, by decide, by decide⟩,
    C6_amended_second_run_unchanged fsPlain mPlain
      (by decide) (by decide) (by decide) (by decide)⟩

/- Archive snapshot replacement (claim C8). -/

theorem writeFile_files_of_absent (fs : FS) (k : Path) (c : String)
    (h : fs.lookupFile k = none) :
    (fs.writeFile k c).files = fs.files ++ [(k, c)] ∧
    (fs.writeFile k c).dirs = fs.dirs := by
  unfold FS.writeFile
  rw [h]
  exact ⟨rfl, rfl⟩

theorem isPrefixOf_append_self (a x : Path) : a.isPrefixOf (a ++ x) = true :=
  List.isPrefixOf_iff_prefix.mpr (List.prefix_append a x)

/-- The archive write loop appends exactly one entry per mapping pair, each
read from the filesystem it started from. -/
theorem archiveWrites_spec (apath droot : Path) :
    ∀ (m : List (Path × Path)) (fsb : FS),
      (m.map (fun ds => apath ++ relative_to ds.1 droot)).Nodup →
      (∀ ds ∈ m, fsb.lookupFile (apath ++ relative_to ds.1 droot) = none) →
      (∀ ds ∈ m, ¬ apath.isPrefixOf ds.2 = true) →
      (archiveWrites apath droot fsb m).files =
        fsb.files ++ m.map (fun ds =>
          (apath ++ relative_to ds.1 droot, fsb.readBytes ds.2)) := by
  intro m
  induction m with
  | nil => intro fsb _ _ _; simp [archiveWrites]
  | cons ds rest ih =>
    intro fsb hnd habs hsrc
    obtain ⟨d, s⟩ := ds
    have hk0 := habs (d, s) (List.mem_cons_self _ _)
    have hw := writeFile_files_of_absent fsb (apath ++ relative_to d droot)
      (fsb.readBytes s) hk0
    rw [List.map_cons, List.nodup_cons] at hnd
    have hstep : archiveWrites apath droot fsb ((d, s) :: rest) =
        archiveWrites apath droot
          (fsb.writeFile (apath ++ relative_to d droot) (fsb.readBytes s)) rest := rfl
    rw [hstep, ih _ ?hnd ?habs ?hsrc]
    case hnd => exact hnd.2
    case habs =>
      intro e he
      rw [lookupFile_writeFile, if_neg, habs e (List.mem_cons_of_mem _ he)]
      intro hc
      exact hnd.1 (hc ▸ List.mem_map.mpr ⟨e, he, rfl⟩)
    case hsrc => exact fun e he => hsrc e (List.mem_cons_of_mem _ he)
    rw [hw.1, List.append_assoc, List.singleton_append, List.map_cons]
    congr 1
    congr 1
    apply List.map_congr_left
    intro e he
    have hse : e.2 ≠ apath ++ relative_to d droot := by
      intro hc
      exact hsrc e (List.mem_cons_of_mem _ he)
        (hc ▸ isPrefixOf_append_self apath (relative_to d droot))
    rw [readBytes_writeFile, if_neg hse]

theorem find?_filter_of_imp (l : List (Path × String)) (q r : Path × String → Bool)
    (h : ∀ e, r e = true → q e = true) :
    (l.filter q).find? r = l.find? r := by
  induction l with
  | nil => rfl
  | cons e rest ih =>
    by_cases hq : q e = true
    · rw [List.filter_cons, if_pos hq]
      by_cases hr : r e = true
      · rw [List.find?_cons_of_pos _ hr, List.find?_cons_of_pos _ hr]
      · rw [List.find?_cons_of_neg _ hr, List.find?_cons_of_neg _ hr]
        exact ih
    · rw [List.filter_cons, if_neg hq]
      have hr : ¬r e = true := fun hre => hq (h e hre)
      rw [List.find?_cons_of_neg _ hr]
      exact ih

/-- Deleting and recreating the snapshot directory leaves files outside the
snapshot untouched, and strips exactly the files under it. -/
theorem archiveBase_files (fs : FS) (apath : Path) :
    ((fs.rmtree apath).mkdirParents apath).files =
      fs.files.filter (fun e => !(apath.isPrefixOf e.1)) := rfl

theorem lookupFile_archiveBase (fs : FS) (apath p : Path)
    (hp : ¬apath.isPrefixOf p = true) :
    ((fs.rmtree apath).mkdirParents apath).lookupFile p = fs.lookupFile p := by
  simp only [FS.lookupFile, archiveBase_files]
  rw [find?_filter_of_imp]
  intro e hre
  have he : e.1 = p := of_decide_eq_true hre
  rw [Bool.not_eq_true] at hp
  rw [he, Bool.not_eq_true', hp]

theorem archiveWrites_lookup_outside (apath droot : Path) :
    ∀ (m : List (Path × Path)) (fsb : FS) (p : Path), ¬apath.isPrefixOf p = true →
      (archiveWrites apath droot fsb m).lookupFile p = fsb.lookupFile p := by
  intro m
  induction m with
  | nil => intro fsb p _; rfl
  | cons ds rest ih =>
    intro fsb p hp
    obtain ⟨d, s⟩ := ds
    have hstep : archiveWrites apath droot fsb ((d, s) :: rest) =
        archiveWrites apath droot
          (fsb.writeFile (apath ++ relative_to d droot) (fsb.readBytes s)) rest := rfl
    rw [hstep, ih _ p hp, lookupFile_writeFile, if_neg]
    intro hc
    exact hp (hc ▸ isPrefixOf_append_self apath (relative_to d droot))

/-- Archiving never touches any path outside the dated snapshot directory. -/
theorem archiveOne_lookup_outside (fs : FS) (droot slot : Path) (today : String)
    (m : List (Path × Path)) (p : Path)
    (hp : ¬(droot ++ slot ++ [today]).isPrefixOf p = true) :
    (archiveOne fs droot slot today m).lookupFile p = fs.lookupFile p := by
  unfold archiveOne
  rw [archiveWrites_lookup_outside _ _ m _ p hp, lookupFile_archiveBase fs _ p hp]

/-- One archive run leaves, under the dated snapshot directory, exactly the
re-rooted image of the mapping, read from the current filesystem. -/
theorem archiveOne_snapshot (fs : FS) (droot slot : Path) (today : String)
    (m : List (Path × Path))
    (hd : ∀ ds ∈ m, droot.isPrefixOf ds.1 = true)
    (hk : (m.map Prod.fst).Nodup)
    (hs : ∀ ds ∈ m, ¬(droot ++ slot ++ [today]).isPrefixOf ds.2 = true) :
    (archiveOne fs droot slot today m).files.filter
        (fun e => (droot ++ slot ++ [today]).isPrefixOf e.1) =
      m.map (fun ds => ((droot ++ slot ++ [today]) ++ relative_to ds.1 droot,
        fs.readBytes ds.2)) := by
  have hwk : (m.map (fun ds => (droot ++ slot ++ [today]) ++
      relative_to ds.1 droot)).Nodup := by
    have hcomp : (fun ds : Path × Path => (droot ++ slot ++ [today]) ++
        relative_to ds.1 droot) =
        (fun d => (droot ++ slot ++ [today]) ++ relative_to d droot) ∘ Prod.fst := rfl
    rw [hcomp, ← List.map_map]
    refine hk.map_on ?_
    intro x hx y hy hxy
    obtain ⟨ex, hex, hex1⟩ := List.mem_map.mp hx
    obtain ⟨ey, hey, hey1⟩ := List.mem_map.mp hy
    have hxp : droot ++ x.drop droot.length = x :=
      List.prefix_iff_eq_append.mp
        (List.isPrefixOf_iff_prefix.mp (hex1 ▸ hd ex hex))
    have hyp : droot ++ y.drop droot.length = y :=
      List.prefix_iff_eq_append.mp
        (List.isPrefixOf_iff_prefix.mp (hey1 ▸ hd ey hey))
    have hrel : relative_to x droot = relative_to y droot :=
      List.append_cancel_left hxy
    rw [relative_to, if_pos (hex1 ▸ hd ex hex), relative_to,
      if_pos (hey1 ▸ hd ey hey)] at hrel
    rw [← hxp, ← hyp, hrel]
  have habs : ∀ ds ∈ m, ((fs.rmtree (droot ++ slot ++ [today])).mkdirParents
      (droot ++ slot ++ [today])).lookupFile
        ((droot ++ slot ++ [today]) ++ relative_to ds.1 droot) = none := by
    intro ds _
    simp only [FS.lookupFile, archiveBase_files]
    rw [Option.map_eq_none']
    rw [List.find?_eq_none]
    intro e hemem hre
    have he : e.1 = (droot ++ slot ++ [today]) ++ relative_to ds.1 droot :=
      of_decide_eq_true hre
    have hkept := (List.mem_filter.mp hemem).2
    rw [he, Bool.not_eq_true', isPrefixOf_append_self] at hkept
    simp at hkept
  have hsrcbase : ∀ ds ∈ m, ¬(droot ++ slot ++ [today]).isPrefixOf ds.2 = true :=
    hs
  have haw := archiveWrites_spec (droot ++ slot ++ [today]) droot m
    ((fs.rmtree (droot ++ slot ++ [today])).mkdirParents (droot ++ slot ++ [today]))
    hwk habs hsrcbase
  show (archiveWrites (droot ++ slot ++ [today]) droot _ m).files.filter _ = _
  rw [haw, List.filter_append]
  have hleft : (((fs.rmtree (droot ++ slot ++ [today])).mkdirParents
      (droot ++ slot ++ [today])).files.filter
        (fun e => (droot ++ slot ++ [today]).isPrefixOf e.1)) = [] := by
    rw [List.filter_eq_nil_iff]
    intro e he
    rw [archiveBase_files] at he
    have hkept := (List.mem_filter.mp he).2
    rw [Bool.not_eq_true'] at hkept
    rw [hkept]
    simp
  have hright : ((m.map (fun ds => ((droot ++ slot ++ [today]) ++
      relative_to ds.1 droot,
      ((fs.rmtree (droot ++ slot ++ [today])).mkdirParents
        (droot ++ slot ++ [today])).readBytes ds.2))).filter
        (fun e => (droot ++ slot ++ [today]).isPrefixOf e.1)) =
      m.map (fun ds => ((droot ++ slot ++ [today]) ++ relative_to ds.1 droot,
        ((fs.rmtree (droot ++ slot ++ [today])).mkdirParents
          (droot ++ slot ++ [today])).readBytes ds.2)) := by
    rw [List.filter_eq_self]
    intro e he
    obtain ⟨ds, _, hds1⟩ := List.mem_map.mp he
    rw [← hds1]
    exact isPrefixOf_append_self _ _
  rw [hleft, hright, List.nil_append]
  apply List.map_congr_left
  intro ds hds
  rw [readBytes_eq_of_lookup _ fs _
    (lookupFile_archiveBase fs (droot ++ slot ++ [today]) ds.2 (hs ds hds))]

/-- C8: re-running the archive phase for the same slot and UTC day replaces
the dated snapshot: after archiving mapping m1 and then mapping m2, the files
under the snapshot directory are exactly the re-rooted image of m2 read from
the original filesystem, with no leftover entries of m1. -/
theorem C8_archive_snapshot_replaced (fs : FS) (droot slot : Path) (today : String)
    (m1 m2 : List (Path × Path))
    (hd : ∀ ds ∈ m2, droot.isPrefixOf ds.1 = true)
    (hk : (m2.map Prod.fst).Nodup)
    (hs : ∀ ds ∈ m2, ¬(droot ++ slot ++ [today]).isPrefixOf ds.2 = true) :
    (archiveOne (archiveOne fs droot slot today m1) droot slot today m2).files.filter
        (fun e => (droot ++ slot ++ [today]).isPrefixOf e.1) =
      m2.map (fun ds => ((droot ++ slot ++ [today]) ++ relative_to ds.1 droot,
        fs.readBytes ds.2)) := by
  rw [archiveOne_snapshot (archiveOne fs droot slot today m1) droot slot today m2
    hd hk hs]
  apply List.map_congr_left
  intro ds hds
  rw [readBytes_eq_of_lookup _ fs _
    (archiveOne_lookup_outside fs droot slot today m1 ds.2 (hs ds hds))]

/-- Archive scenario: first run snapshots f and g, second run only f. -/
def fsArch : FS := ⟨[["out"]], [(["src", "f"], "one"), (["src", "g"], "two")]⟩

def mArch1 : List (Path × Path) := [(["out", "f"], ["src", "f"]), (["out", "g"], ["src", "g"])]

def mArch2 : List (Path × Path) := [(["out", "f"], ["src", "f"])]

/-- C8 witness: after archiving mArch1 and then mArch2 on the same day, the
snapshot holds only mArch2's entry. -/
theorem C8_witness :
    ((∀ ds ∈ mArch2, (["out"] : Path).isPrefixOf ds.1 = true) ∧
      (mArch2.map Prod.fst).Nodup ∧
      (∀ ds ∈ mArch2, ¬((["out"] ++ ["arch"] ++ ["2026-10-12"]) : Path).isPrefixOf
        ds.2 = true)) ∧
    (archiveOne (archiveOne fsArch ["out"] ["arch"] "2026-10-12" mArch1)
        ["out"] ["arch"] "2026-10-12" mArch2).files.filter
        (fun e => ((["out"] ++ ["arch"] ++ ["2026-10-12"]) : Path).isPrefixOf e.1) =
      mArch2.map (fun ds => (((["out"] ++ ["arch"] ++ ["2026-10-12"]) : Path) ++
        relative_to ds.1 ["out"], fsArch.readBytes ds.2)) :=
  ⟨⟨by decide, by decide, by decide⟩,
    C8_archive_snapshot_replaced fsArch ["out"] ["arch"] "2026-10-12" mArch1 mArch2
      (by decide) (by decide) (by decide)⟩

/- Destination-declaration precedence (claim C2). -/

/-- The destination scan is a first-match search over the line window. -/
theorem scanDestination_eq_find (lines : List String) :
    scanDestination lines = (lines.find? isDeclLine).map
      (fun l => literal_eval (pySplitRest sepEq l)) := by
  induction lines with
  | nil => rfl
  | cons l rest ih =>
    by_cases h : isDeclLine l = true
    · simp only [scanDestination]
      rw [if_pos h, List.find?_cons_of_pos _ h]
      rfl
    · simp only [scanDestination]
      rw [if_neg h, List.find?_cons_of_neg _ h, ih]

/-- C2 (amended): for every accepted candidate with at least one recognized
destination-declaration line in the five-line window, discovery takes the
FIRST such match as the authoritative destination (the loop breaks at the
first match; later declaration lines are ignored). -/
theorem C2_amended_first_declaration_wins (fs : FS) (p : Path) (guess : Bool)
    (content line : String)
    (hc : fs.lookupFile p = some content)
    (haccept : path_suffix p = dotPy ∨
      (path_suffix p ≠ dotPy ∧ ∃ l0 rest0, pySplitlines content = l0 :: rest0 ∧
        PYTHON_SHEBANGS.any (fun sh => strStarts l0 sh) = true))
    (hfind : ((pySplitlines content).take 5).find? isDeclLine = some line) :
    classifyFile fs p guess =
      .ok (some (p, pathOfString (literal_eval (pySplitRest sepEq line)))) := by
  have hread : fs.readText p = content := by
    simp [FS.readText, FS.readBytes, hc]
  have hrest : classifyRest p guess (pySplitlines content) =
      .ok (some (p, pathOfString (literal_eval (pySplitRest sepEq line)))) := by
    unfold classifyRest
    rw [scanDestination_eq_find, hfind]
    rfl
  unfold classifyFile
  rw [hread]
  rcases haccept with hpy | ⟨hnpy, l0, rest0, hsplit, hshe⟩
  · rw [if_neg (by simp [hpy])]
    exact hrest
  · rw [if_pos hnpy, hsplit]
    rw [hsplit] at hrest
    simp only [hshe, if_true]
    exact hrest

/-- C2 amended witness: the two-declaration file is classified with the
first declaration's literal. -/
theorem C2_amended_witness :
    ((pySplitlines ((fsTwoDecl.lookupFile ["a.py"]).getD "")).take 5).find?
        isDeclLine = some "DEPLOY_TARGET = \"first\"" ∧
    classifyFile fsTwoDecl ["a.py"] true = .ok (some (["a.py"], ["first"])) :=
  ⟨rfl, C2_amended_first_declaration_wins fsTwoDecl ["a.py"] true
    "DEPLOY_TARGET = \"first\"\nDEPLOY_TARGET = \"second\"\n"
    "DEPLOY_TARGET = \"first\"" rfl (Or.inl rfl) rfl⟩

/- Template stem rewriting in the active deployment path (claim C4). -/

/-- When resolution and the layer-1 build succeed, the completed outcome's
mapping is the template overlay applied to the layer-1 mapping. -/
theorem outcomeMapping_deploy_file (fs : FS) (templ : Option Path)
    (arch : List Path) (today : String) (main_path destination : Path)
    (droot mdest : Path) (m0 : List (Path × Path))
    (hres : resolveDestination fs destination main_path = some (droot, mdest))
    (hins : insertSources droot mdest (path_parent main_path) main_path
      (sourcesChain fs main_path) [] = .ok m0) :
    outcomeMapping (deploy_file fs templ arch today main_path destination).1 =
      some (addTemplates fs templ droot mdest main_path m0) := by
  unfold deploy_file
  rw [hres]
  simp only [hins]
  split <;> rfl

/-- Scenario family for C4: a template directory holding one file of an
arbitrary name, with main deployable job.py destined for out/worker. -/
def fsTplParam (tname : String) : FS :=
  ⟨[["out"], ["tpl"]], [(["src", "job.py"], ""), (["tpl", tname], "cfg")]⟩

/-- C4 (amended): the active path (deploy_file) rewrites a template entry's
destination stem only when the entry's stem equals the main source's stem; a
fixed placeholder stem such as TARGET receives no special treatment, so for
every template file whose stem differs from the main stem the mapping keeps
the template file's own name (the scenario yields out/TARGET.cfg, and no
out/worker.cfg entry exists). -/
theorem C4_amended_no_placeholder_rewrite (tname : String)
    (hstem : pyStem tname ≠ "job")
    (hchar : ¬((pyStem tname).data.headD ' ' ∈ ['.', '_', ':', ' ']))
    (hname : tname ≠ "worker.py") :
    outcomeMapping (deploy_file (fsTplParam tname) (some ["tpl"]) [] "2026-10-12"
        ["src", "job.py"] ["out", "worker"]).1 =
      some [(["out", "worker.py"], ["src", "job.py"]),
        (["out", tname], ["tpl", tname])] := by
  have hres : resolveDestination (fsTplParam tname) ["out", "worker"]
      ["src", "job.py"] = some (["out"], ["out", "worker"]) := rfl
  have hins : insertSources ["out"] ["out", "worker"]
      (path_parent ["src", "job.py"]) ["src", "job.py"]
      (sourcesChain (fsTplParam tname) ["src", "job.py"]) [] =
      .ok [(["out", "worker.py"], ["src", "job.py"])] := rfl
  rw [outcomeMapping_deploy_file (fsTplParam tname) (some ["tpl"]) [] "2026-10-12"
    ["src", "job.py"] ["out", "worker"] ["out"] ["out", "worker"]
    [(["out", "worker.py"], ["src", "job.py"])] hres hins]
  have hiter : iterdir (fsTplParam tname) ["tpl"] = [["tpl", tname]] := by
    have hchildren : (fsTplParam tname).children ["tpl"] = [["tpl", tname]] := rfl
    unfold iterdir
    rw [hchildren, List.filter_cons,
      show path_name ["tpl", tname] = tname from rfl,
      if_pos (decide_eq_true hchar)]
    rfl
  have hdest : destFor ["out"] ["out", "worker"] ["tpl"] ["src", "job.py"]
      ["tpl", tname] = ["out", tname] := by
    unfold destFor
    rw [show path_stem ["tpl", tname] = pyStem tname from rfl,
      show path_stem ["src", "job.py"] = "job" from rfl, if_neg hstem]
    rfl
  have hlk : mlookup [(["out", "worker.py"], ["src", "job.py"])]
      ["out", tname] = none := by
    rw [mlookup_cons, if_neg, mlookup]
    · rfl
    · simp only [List.cons.injEq]
      intro hcon
      exact hname hcon.2.1.symm
  show some (addTemplatesList (fsTplParam tname) ["out"] ["out", "worker"]
    ["src", "job.py"] ["tpl"] (iterdir (fsTplParam tname) ["tpl"])
    [(["out", "worker.py"], ["src", "job.py"])]) = _
  rw [hiter]
  simp only [addTemplatesList]
  rw [hdest, hlk]
  rfl

/-- C4 amended witness: the TARGET.cfg placeholder satisfies the stem and
name side conditions, and the mapping keeps out/TARGET.cfg unrewritten. -/
theorem C4_amended_witness :
    (pyStem "TARGET.cfg" ≠ "job" ∧
      ¬((pyStem "TARGET.cfg").data.headD ' ' ∈ ['.', '_', ':', ' ']) ∧
      "TARGET.cfg" ≠ "worker.py") ∧
    outcomeMapping (deploy_file (fsTplParam "TARGET.cfg") (some ["tpl"]) []
        "2026-10-12" ["src", "job.py"] ["out", "worker"]).1 =
      some [(["out", "worker.py"], ["src", "job.py"]),
        (["out", "TARGET.cfg"], ["tpl", "TARGET.cfg"])] :=
  ⟨⟨by decide, by decide, by decide⟩,
    C4_amended_no_placeholder_rewrite "TARGET.cfg"
      (by decide) (by decide) (by decide)⟩

end Deploypy
